import Mathlib

/-!
Verification of the ftp-bridge storage core: a shallow embedding of
`storage_backend.py` (path sanitizer, user masking, chunk-size tuning,
backend factory) and of the download pipeline in `main.py`
(`download_with_storage_backend`), together with theorems settling the
frozen specification claims.

Strings are modelled as `List Char`.  Python's `\w` character class is
Unicode-aware; the embedding covers its ASCII fragment (letters, digits,
underscore), which is the fragment every claim and counterexample uses.
-/

namespace FtpBridge

open List

/-! ## PathSanitizer — `storage_backend.py`, `sanitize_path` (lines 336-363)

The Python code checks, in order: empty input; the regex
`^\/[\w\-\.\/]*$` via `re.match`; the substring `".."`; the substring
`"//"`; then normalizes with `os.path.normpath` (POSIX) and re-asserts a
leading `/`.  Every piece is embedded below. -/

/-- One character of the class `[\w\-\.\/]` (ASCII fragment of
Python's Unicode-aware `\w`, plus the explicit `-`, `.`, `/`). -/
def isPathChar (c : Char) : Bool :=
  c.isAlpha || c.isDigit || c = '_' || c = '-' || c = '.' || c = '/'

/-- Whole-string match of `\/[\w\-\.\/]*` (strict end of string):
a leading `/` followed by class characters only. -/
def matchesCore : List Char → Bool
  | [] => false
  | c :: rest => c == '/' && rest.all isPathChar

/-- Drop a single trailing newline, if present. -/
def stripTrailingNewline (l : List Char) : List Char :=
  if l.getLast? = some '\n' then l.dropLast else l

/-- Python `re.match(r"^\/[\w\-\.\/]*$", s)` as a Boolean: in Python,
`$` matches at the end of the string **or just before a trailing
newline**, so a match succeeds on the string itself or on the string
with one final `'\n'` removed. -/
def reMatchValidPath (s : List Char) : Bool :=
  matchesCore s || matchesCore (stripTrailingNewline s)

/-- Python `sub in s` (substring containment). -/
def containsSub (sub s : List Char) : Bool := decide (sub <:+: s)

/-- The component filter performed by `posixpath.normpath`'s loop on
inputs free of `".."` components: empty components and `"."` are
dropped (`if comp in ('', '.'): continue`). -/
def keepComp (c : List Char) : Bool :=
  if c = [] ∨ c = ['.'] then false else true

/-- The component loop of `posixpath.normpath`: Python appends to /
pops from the end of `new_comps`; `acc` is that list. -/
def normLoop (initialSlashes : Nat) (acc : List (List Char)) :
    List (List Char) → List (List Char)
  | [] => acc
  | comp :: rest =>
    if comp = [] ∨ comp = ['.'] then normLoop initialSlashes acc rest
    else if comp ≠ ['.', '.'] ∨ (initialSlashes = 0 ∧ acc = []) ∨
        (acc ≠ [] ∧ acc.getLast? = some ['.', '.']) then
      normLoop initialSlashes (acc ++ [comp]) rest
    else if acc ≠ [] then normLoop initialSlashes acc.dropLast rest
    else normLoop initialSlashes acc rest

/-- `initial_slashes` of `posixpath.normpath`: 2 exactly for a
`//`-but-not-`///` prefix, else 1 for a leading `/`, else 0. -/
def initialSlashesOf (path : List Char) : Nat :=
  if path.take 1 = ['/'] then
    if path.take 2 = ['/', '/'] ∧ path.take 3 ≠ ['/', '/', '/'] then 2 else 1
  else 0

/-- Python `path or '.'` at the end of `normpath`. -/
def emptyToDot (l : List Char) : List Char := if l = [] then ['.'] else l

/-- Embedding of `posixpath.normpath` (CPython): empty input becomes
`"."`; the input is split on `/`, the component loop runs, and the
result is re-joined behind the initial slashes (`''` becomes `'.'`). -/
def normpath (path : List Char) : List Char :=
  if path = [] then ['.']
  else
    emptyToDot (List.replicate (initialSlashesOf path) '/' ++
      List.intercalate ['/'] (normLoop (initialSlashesOf path) [] (path.splitOn '/')))

inductive SanitizeError where
  /-- "Путь не может быть пустым" (line 342). -/
  | emptyPath
  /-- "Недопустимый путь …" — the regex did not match (line 347). -/
  | invalidChars
  /-- "Обнаружена попытка path traversal (..)" (line 351). -/
  | traversal
  /-- "Двойные слеши не допускаются" (line 354). -/
  | doubleSlash
  deriving DecidableEq, Repr

/-- Embedding of `sanitize_path` (`storage_backend.py` 336-363);
`raise ValueError` is modelled by `Except.error`. -/
def sanitize_path (path : List Char) : Except SanitizeError (List Char) :=
  if path = [] then .error .emptyPath
  else if !reMatchValidPath path then .error .invalidChars
  else if containsSub ['.', '.'] path then .error .traversal
  else if containsSub ['/', '/'] path then .error .doubleSlash
  -- line 360-361: if not normalized.startswith('/'):
  --                   normalized = '/' + normalized.lstrip('/')
  else if (normpath path).take 1 = ['/'] then .ok (normpath path)
  else .ok ('/' :: (normpath path).dropWhile (· = '/'))

/-- The character-class condition exactly as the specification words it
("a leading separator followed only by word characters, hyphens, dots,
and separators" — nothing else, in particular no trailing newline).
Used only to compare the spec's claim against the code's `re.match`
semantics. -/
def specPatternMatches (s : List Char) : Bool := matchesCore s

/-! ## UserInfoMasker — `storage_backend.py`, `mask_user_info` (lines 365-386)

Fallible indexing (`local[0]` on an empty local part raises `IndexError`)
is modelled by returning `none`. -/

/-- Embedding of `mask_user_info`.  Python source:
`split("@", 1)` is modelled by `takeWhile`/`dropWhile` at the first `'@'`;
`local[0]` and `user_string[0]`/`user_string[-1]` are modelled by pattern
matching, with the out-of-range case mapped to `none`. -/
def mask_user_info (user_string : List Char) : Option (List Char) :=
  if user_string = [] then some user_string
  else if '@' ∈ user_string then
    -- local, domain = user_string.split("@", 1)
    let localPart := user_string.takeWhile (· ≠ '@')
    let domain := (user_string.dropWhile (· ≠ '@')).tail
    if localPart.length ≤ 2 then
      match localPart with
      | [] => none -- local[0] raises IndexError
      | c :: _ => some (c :: '*' :: '@' :: domain)
    else
      match localPart with
      | [] => none
      | c :: _ => some (c :: List.replicate (localPart.length - 1) '*' ++ '@' :: domain)
  else
    if user_string.length ≤ 2 then
      match user_string with
      | [] => none
      | c :: _ => some [c, '*']
    else
      match user_string, user_string.getLast? with
      | c :: _, some d => some (c :: List.replicate (user_string.length - 2) '*' ++ [d])
      | _, _ => none

/-! ## ChunkSizeAdvisor — `storage_backend.py`, `auto_tune_chunk_size` (388-401) -/

/-- Embedding of `auto_tune_chunk_size` (the Python default
`default_chunk_size=8192` is passed explicitly by callers here). -/
def auto_tune_chunk_size (file_size default_chunk_size : Nat) : Nat :=
  let large_file_threshold := 10 * 1024 * 1024
  if file_size > large_file_threshold then 64 * 1024 else default_chunk_size

/-! ## BackendFactory — `storage_backend.py`, `StorageBackendFactory.create_backend`
(306-334) and the `StorageBackend` constructors (20-26, 275-278). -/

inductive Protocol where
  | ftp
  | ftps
  | sftp
  deriving DecidableEq, Repr

/-- `get_protocol_name` of the three `StorageBackend` variants
(`storage_backend.py` lines 109-110, 163-164, 303-304). -/
def get_protocol_name : Protocol → List Char
  | .ftp => "ftp".data
  | .ftps => "ftps".data
  | .sftp => "sftp".data

/-- A freshly constructed (not yet connected) backend object: the fields
set by `StorageBackend.__init__` (lines 20-26) and, for SFTP, the extra
`known_hosts_path` field (lines 275-278).  `connection` is `None` after
construction (line 26); no constructor performs any I/O. -/
structure BackendInit where
  protocol : Protocol
  host : List Char
  port : Nat
  user : List Char
  password : List Char
  timeout : Nat
  known_hosts_path : Option (List Char)
  connection : Option Unit
  deriving Repr

inductive FactoryError where
  | unsupportedProtocol
  deriving DecidableEq, Repr

/-- `protocol.lower()` on the ASCII fragment. -/
def pyLower (s : List Char) : List Char := s.map Char.toLower

/-- Python `port or default` where `port : Optional[int]`: both `None`
and `0` are falsy, so either yields the default. -/
def portOrDefault (port : Option Nat) (d : Nat) : Nat :=
  match port with
  | none => d
  | some p => if p = 0 then d else p

/-- Embedding of `StorageBackendFactory.create_backend`.  Raising
`ValueError` for an unrecognized protocol is modelled by
`Except.error .unsupportedProtocol`. -/
def create_backend (protocol host : List Char) (port : Option Nat)
    (user password : List Char) (timeout : Nat)
    (known_hosts_path : Option (List Char)) : Except FactoryError BackendInit :=
  if pyLower protocol = "ftp".data then
    .ok { protocol := .ftp, host := host, port := portOrDefault port 21,
          user := user, password := password, timeout := timeout,
          known_hosts_path := none, connection := none }
  else if pyLower protocol = "ftps".data then
    .ok { protocol := .ftps, host := host, port := portOrDefault port 990,
          user := user, password := password, timeout := timeout,
          known_hosts_path := none, connection := none }
  else if pyLower protocol = "sftp".data then
    .ok { protocol := .sftp, host := host, port := portOrDefault port 22,
          user := user, password := password, timeout := timeout,
          known_hosts_path := known_hosts_path, connection := none }
  else
    .error .unsupportedProtocol

/-! ## DownloadPipeline — `main.py`, `download_with_storage_backend` (204-284)

The remote backend is abstract: a `StubBackend` records how its three
session operations behave (`connect`, `get_file_size`,
`download_to_stream`).  The pipeline's observable effects — outcome,
session lifecycle, temp-file lifecycle — are returned as a record. -/

/-- Abstract behaviour of one backend session, quantified over in the
pipeline claims.  `sizeResult` is `Except` because the `with backend:`
block in `main.py` guards the size query too; the concrete backends in
`storage_backend.py` return 0 instead of raising, which is the
`.ok 0` case.  `bytesStreamed` is the number of bytes
`download_to_stream` writes into the local sink before it returns
(`downloadFails = false`) or raises (`downloadFails = true`). -/
structure StubBackend where
  connectFails : Bool
  sizeResult : Except Unit Nat
  bytesStreamed : Nat
  downloadFails : Bool

inductive PipelineError where
  /-- `mask_user_info` raised (IndexError) at `main.py:221`. -/
  | maskCrash
  /-- `connect()` raised `ConnectionError` inside `__enter__`. -/
  | connectionFailed
  /-- the size query raised inside the `with` block. -/
  | sizeQueryFailed
  /-- `main.py:243` — `ValueError` "Файл слишком большой" (FileTooLarge). -/
  | fileTooLarge
  /-- `download_to_stream` raised (TransferError). -/
  | transferFailed
  /-- `main.py:258` — HTTPException "Загруженный файл пуст" (EmptyTransfer). -/
  | emptyTransfer
  deriving DecidableEq, Repr

/-- Observable result of one pipeline run. -/
structure PipelineRun where
  /-- error propagated to the caller, or the returned `file_size`. -/
  outcome : Except PipelineError Nat
  /-- a backend session was successfully opened at some point. -/
  sessionEverOpened : Bool
  /-- a backend session is still open when the call returns. -/
  sessionOpenAtEnd : Bool
  /-- how many times `close()` ran (`StorageBackend.__exit__`, lines 57-58). -/
  closeCalls : Nat
  /-- `download_to_stream` was invoked. -/
  downloadInvoked : Bool
  /-- the spooled temp file still exists when the call returns. -/
  tempFileExists : Bool
  /-- size of the spooled temp file when the call returns (0 if deleted). -/
  tempFileSize : Nat

/-- Embedding of `download_with_storage_backend` (`main.py` 204-284).

Control flow mirrored line by line:
* 213-218: the spooled temp file is created empty;
* 221: `mask_user_info(params['user'])` — if it raises, the generic
  handler (267-269) deletes the temp file and propagates;
* 237 `with backend:` — `__enter__` runs `connect()`
  (`storage_backend.py` 53-55); if `connect` raises, no session was
  opened and `__exit__` does not run; otherwise `__exit__` (57-58) runs
  `close()` exactly once on every exit from the block;
* 239-243: size query, then `if file_size > settings.max_file_size`
  raises `ValueError` before any download;
* 246-247: `open(temp_file, 'wb')` truncates, then `download_to_stream`
  writes `bytesStreamed` bytes into it (partial content stays on a
  mid-stream failure);
* 256-258: the size is re-measured from the local file; 0 raises
  HTTPException, whose handler (263-266) deletes the temp file;
* 263-269: every failure path deletes the temp file before re-raising.

The handler at 271 re-runs `mask_user_info` on the same input; it is
reachable only when the call at line 221 already succeeded, so it
introduces no new failure (mask is pure and deterministic). -/
def download_with_storage_backend (user : List Char) (backend : StubBackend)
    (max_file_size : Nat) : PipelineRun :=
  if (mask_user_info user).isNone then
    { outcome := .error .maskCrash, sessionEverOpened := false,
      sessionOpenAtEnd := false, closeCalls := 0, downloadInvoked := false,
      tempFileExists := false, tempFileSize := 0 }
  else if backend.connectFails then
    { outcome := .error .connectionFailed, sessionEverOpened := false,
      sessionOpenAtEnd := false, closeCalls := 0, downloadInvoked := false,
      tempFileExists := false, tempFileSize := 0 }
  else
    match backend.sizeResult with
    | .error _ =>
      { outcome := .error .sizeQueryFailed, sessionEverOpened := true,
        sessionOpenAtEnd := false, closeCalls := 1, downloadInvoked := false,
        tempFileExists := false, tempFileSize := 0 }
    | .ok file_size =>
      if file_size > max_file_size then
        { outcome := .error .fileTooLarge, sessionEverOpened := true,
          sessionOpenAtEnd := false, closeCalls := 1, downloadInvoked := false,
          tempFileExists := false, tempFileSize := 0 }
      else if backend.downloadFails then
        { outcome := .error .transferFailed, sessionEverOpened := true,
          sessionOpenAtEnd := false, closeCalls := 1, downloadInvoked := true,
          tempFileExists := false, tempFileSize := 0 }
      else
        -- main.py:256 — actual_file_size = os.path.getsize(temp_file)
        let actual_file_size := backend.bytesStreamed
        if actual_file_size = 0 then
          { outcome := .error .emptyTransfer, sessionEverOpened := true,
            sessionOpenAtEnd := false, closeCalls := 1, downloadInvoked := true,
            tempFileExists := false, tempFileSize := 0 }
        else
          { outcome := .ok actual_file_size, sessionEverOpened := true,
            sessionOpenAtEnd := false, closeCalls := 1, downloadInvoked := true,
            tempFileExists := true, tempFileSize := actual_file_size }

/-! ## Theorems -/

/-- Claim C1 (confirmed): in every pipeline run in which the size query
reports a size strictly greater than `max_file_size`, the run fails with
`FileTooLarge` and `download_to_stream` is never invoked. -/
theorem pipeline_file_too_large (user : List Char) (backend : StubBackend)
    (max_file_size n : Nat) (hm : (mask_user_info user).isNone = false)
    (hc : backend.connectFails = false) (hs : backend.sizeResult = .ok n)
    (hn : max_file_size < n) :
    (download_with_storage_backend user backend max_file_size).outcome
        = .error .fileTooLarge ∧
    (download_with_storage_backend user backend max_file_size).downloadInvoked
        = false := by
  unfold download_with_storage_backend
  simp [hm, hc, hs, hn]

/-- Witness for C1: a backend reporting size 6 against a ceiling of 5. -/
theorem pipeline_file_too_large_witness :
    (download_with_storage_backend "u".data ⟨false, .ok 6, 0, false⟩ 5).outcome
        = .error .fileTooLarge ∧
    (download_with_storage_backend "u".data ⟨false, .ok 6, 0, false⟩ 5).downloadInvoked
        = false :=
  pipeline_file_too_large "u".data ⟨false, .ok 6, 0, false⟩ 5 6 rfl rfl rfl
    (by decide)

/-- Claim C2 (confirmed): every pipeline run that fails after the backend
session was opened ends with the session closed (exactly one `close()`)
and the spooled temp file deleted. -/
theorem pipeline_cleanup_on_failure (user : List Char) (backend : StubBackend)
    (max_file_size : Nat) (e : PipelineError)
    (hopen : (download_with_storage_backend user backend max_file_size).sessionEverOpened
        = true)
    (herr : (download_with_storage_backend user backend max_file_size).outcome
        = .error e) :
    (download_with_storage_backend user backend max_file_size).sessionOpenAtEnd
        = false ∧
    (download_with_storage_backend user backend max_file_size).closeCalls = 1 ∧
    (download_with_storage_backend user backend max_file_size).tempFileExists
        = false := by
  unfold download_with_storage_backend at hopen herr ⊢
  by_cases h1 : (mask_user_info user).isNone
  · simp [h1] at hopen
  · by_cases h2 : backend.connectFails
    · simp [h1, h2] at hopen
    · cases hs : backend.sizeResult with
      | error u => simp [h1, h2, hs]
      | ok n =>
        by_cases h3 : n > max_file_size
        · simp [h1, h2, hs, h3]
        · by_cases h4 : backend.downloadFails
          · simp [h1, h2, hs, h3, h4]
          · by_cases h5 : backend.bytesStreamed = 0
            · simp [h1, h2, hs, h3, h4, h5]
            · simp [h1, h2, hs, h3, h4, h5] at herr

/-- Witness for C2: a mid-stream transfer failure after 3 bytes. -/
theorem pipeline_cleanup_on_failure_witness :
    (download_with_storage_backend "u".data ⟨false, .ok 10, 3, true⟩ 100).sessionOpenAtEnd
        = false ∧
    (download_with_storage_backend "u".data ⟨false, .ok 10, 3, true⟩ 100).closeCalls = 1 ∧
    (download_with_storage_backend "u".data ⟨false, .ok 10, 3, true⟩ 100).tempFileExists
        = false :=
  pipeline_cleanup_on_failure "u".data ⟨false, .ok 10, 3, true⟩ 100 .transferFailed
    rfl rfl

/-- Claim C3 (confirmed): a transfer that completes having written zero
bytes to the spooled file fails with `EmptyTransfer` and the spooled
file no longer exists afterwards. -/
theorem pipeline_empty_transfer (user : List Char) (backend : StubBackend)
    (max_file_size n : Nat) (hm : (mask_user_info user).isNone = false)
    (hc : backend.connectFails = false) (hs : backend.sizeResult = .ok n)
    (hle : n ≤ max_file_size) (hd : backend.downloadFails = false)
    (hz : backend.bytesStreamed = 0) :
    (download_with_storage_backend user backend max_file_size).outcome
        = .error .emptyTransfer ∧
    (download_with_storage_backend user backend max_file_size).tempFileExists
        = false := by
  unfold download_with_storage_backend
  simp [hm, hc, hs, Nat.not_lt.mpr hle, hd, hz]

/-- Witness for C3: a backend stub that streams 0 bytes. -/
theorem pipeline_empty_transfer_witness :
    (download_with_storage_backend "u".data ⟨false, .ok 0, 0, false⟩ 100).outcome
        = .error .emptyTransfer ∧
    (download_with_storage_backend "u".data ⟨false, .ok 0, 0, false⟩ 100).tempFileExists
        = false :=
  pipeline_empty_transfer "u".data ⟨false, .ok 0, 0, false⟩ 100 0 rfl rfl rfl
    (by decide) rfl rfl

/-- Claim C4 (confirmed): a size query reporting 0 (unknown) is treated
neither as an empty file nor as exceeding the ceiling — if the transfer
then streams `n > 0` bytes the run succeeds and the returned byte size
is `n`, the re-measured size of the local spooled file. -/
theorem pipeline_size_zero_unknown (user : List Char) (backend : StubBackend)
    (max_file_size n : Nat) (hm : (mask_user_info user).isNone = false)
    (hc : backend.connectFails = false) (hs : backend.sizeResult = .ok 0)
    (hd : backend.downloadFails = false) (hb : backend.bytesStreamed = n)
    (hn : 0 < n) :
    (download_with_storage_backend user backend max_file_size).outcome = .ok n ∧
    (download_with_storage_backend user backend max_file_size).tempFileSize = n := by
  unfold download_with_storage_backend
  simp [hm, hc, hs, hd, hb, Nat.pos_iff_ne_zero.mp hn]

/-- Witness for C4: the spec's end-to-end vector — size reported 0, then
500 bytes streamed, run succeeds with byte size 500. -/
theorem pipeline_size_zero_unknown_witness :
    (download_with_storage_backend "u".data ⟨false, .ok 0, 500, false⟩ 1000).outcome
        = .ok 500 ∧
    (download_with_storage_backend "u".data ⟨false, .ok 0, 500, false⟩ 1000).tempFileSize
        = 500 :=
  pipeline_size_zero_unknown "u".data ⟨false, .ok 0, 500, false⟩ 1000 500 rfl rfl
    rfl rfl rfl (by decide)

/-- Claim C7, counterexample: `mask` is not total — on an identity with
an empty local part before `'@'` the code evaluates `local[0]` on an
empty string and raises `IndexError`. -/
theorem mask_user_info_not_total : mask_user_info "@example.com".data = none := rfl

/-- Claim C7 (corrected): `mask` is pure and returns a string on every
input whose first character is not `'@'` (in particular on the empty
string and on every identity with a nonempty local part); it fails
exactly on inputs starting with `'@'`. -/
theorem mask_user_info_total_unless_empty_local (s : List Char)
    (h : s.head? ≠ some '@') : (mask_user_info s).isSome = true := by
  match s with
  | [] => rfl
  | c :: t =>
    have hc : c ≠ '@' := fun e => h (by simp [e])
    simp only [mask_user_info]
    rw [if_neg (by simp : ¬(c :: t = []))]
    by_cases hat : '@' ∈ c :: t
    · have hl : (c :: t).takeWhile (· ≠ '@') = c :: t.takeWhile (· ≠ '@') := by
        rw [List.takeWhile_cons]; simp [hc]
      rw [if_pos hat]
      simp only [hl]
      split <;> simp
    · rw [if_neg hat]
      by_cases hlen : (c :: t).length ≤ 2
      · rw [if_pos hlen]; simp
      · rw [if_neg hlen]
        have hg : (c :: t).getLast? = some ((c :: t).getLast (by simp)) := by
          simp [List.getLast?_eq_getLast]
        rw [hg]
        simp

/-- Witness for C7 (amended): mask succeeds on `"jo@example.com"`. -/
theorem mask_user_info_total_unless_empty_local_witness :
    (mask_user_info "jo@example.com".data).isSome = true :=
  mask_user_info_total_unless_empty_local "jo@example.com".data (by decide)

/-- Claim C9 (confirmed): `auto_tune_chunk_size` returns 64 KiB when the
file size strictly exceeds 10 MiB, and the configured default otherwise
(including at exactly 10 MiB); it is a pure total function. -/
theorem auto_tune_chunk_size_spec (file_size default_chunk_size : Nat) :
    (10 * 1024 * 1024 < file_size →
        auto_tune_chunk_size file_size default_chunk_size = 65536) ∧
    (file_size ≤ 10 * 1024 * 1024 →
        auto_tune_chunk_size file_size default_chunk_size = default_chunk_size) := by
  unfold auto_tune_chunk_size
  constructor
  · intro h; simp [h]
  · intro h; simp [Nat.not_lt.mpr h]

/-- Witness for C9: the spec's vectors, plus the boundary at exactly
10 MiB. -/
theorem auto_tune_chunk_size_spec_witness :
    auto_tune_chunk_size (20 * 1024 * 1024) 8192 = 65536 ∧
    auto_tune_chunk_size 1024 8192 = 8192 ∧
    auto_tune_chunk_size (10 * 1024 * 1024) 8192 = 8192 :=
  ⟨(auto_tune_chunk_size_spec (20 * 1024 * 1024) 8192).1 (by decide),
   (auto_tune_chunk_size_spec 1024 8192).2 (by decide),
   (auto_tune_chunk_size_spec (10 * 1024 * 1024) 8192).2 (by decide)⟩

/-- Claim C8 (confirmed): the factory recognizes exactly `ftp`, `ftps`,
`sftp` case-insensitively; a recognized identifier yields a backend
whose `get_protocol_name` is the lower-cased identifier, whose port
defaults (no port supplied) to 21 / 990 / 22 respectively, and whose
`connection` is `None` (construction opens nothing); any other
identifier fails with `UnsupportedProtocol`. -/
theorem create_backend_spec (protocol host user password : List Char)
    (timeout : Nat) (kh : Option (List Char)) :
    (∀ b, create_backend protocol host none user password timeout kh = .ok b →
        get_protocol_name b.protocol = pyLower protocol ∧
        b.connection = none ∧
        (b.protocol = .ftp → b.port = 21) ∧
        (b.protocol = .ftps → b.port = 990) ∧
        (b.protocol = .sftp → b.port = 22)) ∧
    (pyLower protocol ≠ "ftp".data → pyLower protocol ≠ "ftps".data →
        pyLower protocol ≠ "sftp".data →
        create_backend protocol host none user password timeout kh
          = .error .unsupportedProtocol) ∧
    (pyLower protocol = "ftp".data ∨ pyLower protocol = "ftps".data ∨
        pyLower protocol = "sftp".data →
        ∃ b, create_backend protocol host none user password timeout kh = .ok b) := by
  unfold create_backend
  by_cases h1 : pyLower protocol = "ftp".data
  · refine ⟨?_, ?_, ?_⟩
    · intro b hb
      rw [if_pos h1] at hb
      cases hb
      simp [get_protocol_name, h1, portOrDefault]
    · intro hn _ _; exact absurd h1 hn
    · intro _; rw [if_pos h1]; exact ⟨_, rfl⟩
  · by_cases h2 : pyLower protocol = "ftps".data
    · refine ⟨?_, ?_, ?_⟩
      · intro b hb
        rw [if_neg h1, if_pos h2] at hb
        cases hb
        simp [get_protocol_name, h2, portOrDefault]
      · intro _ hn _; exact absurd h2 hn
      · intro _; rw [if_neg h1, if_pos h2]; exact ⟨_, rfl⟩
    · by_cases h3 : pyLower protocol = "sftp".data
      · refine ⟨?_, ?_, ?_⟩
        · intro b hb
          rw [if_neg h1, if_neg h2, if_pos h3] at hb
          cases hb
          simp [get_protocol_name, h3, portOrDefault]
        · intro _ _ hn; exact absurd h3 hn
        · intro _; rw [if_neg h1, if_neg h2, if_pos h3]; exact ⟨_, rfl⟩
      · refine ⟨?_, ?_, ?_⟩
        · intro b hb
          rw [if_neg h1, if_neg h2, if_neg h3] at hb
          cases hb
        · intro _ _ _; rw [if_neg h1, if_neg h2, if_neg h3]
        · intro h; rcases h with h | h | h
          · exact absurd h h1
          · exact absurd h h2
          · exact absurd h h3

/-- Witness for C8: the spec's vector `create("SFTP", "h", None, "u",
"p", 30)` — protocol name `"sftp"`, effective port 22, no connection —
and an unrecognized identifier `"http"` that is rejected. -/
theorem create_backend_spec_witness :
    create_backend "http".data "h".data none "u".data "p".data 30 none
      = .error .unsupportedProtocol ∧
    ∃ b, create_backend "SFTP".data "h".data none "u".data "p".data 30 none = .ok b ∧
      get_protocol_name b.protocol = "sftp".data ∧ b.port = 22 ∧ b.connection = none := by
  refine ⟨?_, ?_⟩
  · exact (create_backend_spec "http".data "h".data "u".data "p".data 30 none).2.1
      (by decide) (by decide) (by decide)
  · obtain ⟨b, hb⟩ := (create_backend_spec "SFTP".data "h".data "u".data "p".data
      30 none).2.2 (Or.inr (Or.inr (by decide)))
    obtain ⟨hname, hconn, _, _, hport⟩ :=
      (create_backend_spec "SFTP".data "h".data "u".data "p".data 30 none).1 b hb
    have hname' : get_protocol_name b.protocol = "sftp".data := by rw [hname]; decide
    have hp : b.protocol = .sftp := by
      cases hpp : b.protocol
      · rw [hpp] at hname'; exact absurd hname' (by decide)
      · rw [hpp] at hname'; exact absurd hname' (by decide)
      · rfl
    exact ⟨b, hb, hname', hport hp, hconn⟩

/-- Claim C10 (confirmed): the factory treats an explicit port 0 as
unspecified — for each of the three protocols, port 0 yields the
protocol's default port (Python `port or default` is falsy on 0). -/
theorem create_backend_port_zero (host user password : List Char)
    (timeout : Nat) (kh : Option (List Char)) :
    (∃ b, create_backend "ftp".data host (some 0) user password timeout kh
        = .ok b ∧ b.port = 21) ∧
    (∃ b, create_backend "ftps".data host (some 0) user password timeout kh
        = .ok b ∧ b.port = 990) ∧
    (∃ b, create_backend "sftp".data host (some 0) user password timeout kh
        = .ok b ∧ b.port = 22) :=
  ⟨⟨_, rfl, rfl⟩, ⟨_, rfl, rfl⟩, ⟨_, rfl, rfl⟩⟩

/-- Claim C5, counterexample: the claim is false as stated because of
Python's `$` semantics — `re.match(r"^\/[\w\-\.\/]*$", s)` also matches
when `s` carries one trailing newline, so `"/a\n"`, which does **not**
match "a leading separator followed only by word characters, hyphens,
dots, and separators" (`specPatternMatches` is the spec's wording), is
nevertheless accepted and returned unchanged by `sanitize_path`. -/
theorem sanitize_path_newline_accepted :
    specPatternMatches "/a\n".data = false ∧
    sanitize_path "/a\n".data = .ok "/a\n".data :=
  ⟨rfl, rfl⟩

/-- Claim C5 (corrected): every path that is empty, contains `".."`,
contains `"//"`, or fails the `re.match` of `^\/[\w\-\.\/]*$` (which,
unlike the spec's wording, also accepts one trailing newline) is
rejected by `sanitize_path`.  The `".."` disjunct needs no
character-class hypothesis: the `".."` check is performed independently
of (and in addition to) the regex check. -/
theorem sanitize_path_rejects (p : List Char)
    (h : p = [] ∨ containsSub ['.', '.'] p = true ∨
        containsSub ['/', '/'] p = true ∨ reMatchValidPath p = false) :
    ∃ e, sanitize_path p = .error e := by
  by_cases h0 : p = []
  · exact ⟨.emptyPath, by simp [sanitize_path, h0]⟩
  by_cases h1 : reMatchValidPath p = true
  swap
  · refine ⟨.invalidChars, ?_⟩
    unfold sanitize_path
    rw [if_neg h0, if_pos]
    simpa using h1
  by_cases h2 : containsSub ['.', '.'] p = true
  · refine ⟨.traversal, ?_⟩
    unfold sanitize_path
    rw [if_neg h0, if_neg (by simp [h1]), if_pos h2]
  by_cases h3 : containsSub ['/', '/'] p = true
  · refine ⟨.doubleSlash, ?_⟩
    unfold sanitize_path
    rw [if_neg h0, if_neg (by simp [h1]), if_neg h2, if_pos h3]
  · rcases h with h | h | h | h
    · exact absurd h h0
    · exact absurd h h2
    · exact absurd h h3
    · rw [h1] at h; cases h

/-- Witness for C5 (amended): a traversal attempt, a doubled separator,
a bad character, and the empty path are all rejected. -/
theorem sanitize_path_rejects_witness :
    (∃ e, sanitize_path "/a/../b".data = .error e) ∧
    (∃ e, sanitize_path "/a//b".data = .error e) ∧
    (∃ e, sanitize_path "/a b".data = .error e) ∧
    (∃ e, sanitize_path "".data = .error e) :=
  ⟨sanitize_path_rejects "/a/../b".data (Or.inr (Or.inl (by decide))),
   sanitize_path_rejects "/a//b".data (Or.inr (Or.inr (Or.inl (by decide)))),
   sanitize_path_rejects "/a b".data (Or.inr (Or.inr (Or.inr (by decide)))),
   sanitize_path_rejects "".data (Or.inl (by decide))⟩

/-! ### Supporting lemmas for the sanitizer idempotence claim -/

/-- A prefix occurrence is in particular a contiguous occurrence. -/
theorem pref_to_within {s l : List Char} (h : s <+: l) : s <:+: l := by
  obtain ⟨t, ht⟩ := h
  exact ⟨[], t, by simpa using ht⟩

theorem keepComp_true_iff {c : List Char} :
    keepComp c = true ↔ c ≠ [] ∧ c ≠ ['.'] := by
  unfold keepComp
  split
  · next h => simp only [Bool.false_eq_true, false_iff]; tauto
  · next h => push_neg at h; simp [h]

/-- Each component produced by `splitOn '/'` contains no `'/'`. -/
theorem splitOn_no_sep : ∀ (l c : List Char), c ∈ l.splitOn '/' → '/' ∉ c := by
  intro l
  induction l with
  | nil =>
    intro c hc
    simp only [List.splitOn, List.splitOnP_nil, List.mem_singleton] at hc
    simp [hc]
  | cons a t ih =>
    intro c hc
    simp only [List.splitOn, List.splitOnP_cons] at hc ih
    by_cases ha : a = '/'
    · rw [if_pos (by simp [ha])] at hc
      rcases List.mem_cons.mp hc with h | h
      · simp [h]
      · exact ih c h
    · rw [if_neg (by simp [ha])] at hc
      obtain ⟨h₀, rest, he⟩ : ∃ h₀ rest, t.splitOnP (· == '/') = h₀ :: rest := by
        cases hh : t.splitOnP (· == '/') with
        | nil => exact absurd hh (List.splitOnP_ne_nil _ t)
        | cons x xs => exact ⟨x, xs, rfl⟩
      rw [he, List.modifyHead_cons] at hc
      rcases List.mem_cons.mp hc with h | h
      · subst h
        intro hmem
        rcases List.mem_cons.mp hmem with h | h
        · exact ha h.symm
        · exact ih h₀ (by rw [he]; exact List.mem_cons_self _ _) h
      · exact ih c (by rw [he]; exact List.mem_cons_of_mem _ h)

theorem intercalate_cons_two (s a b : List Char) (T : List (List Char)) :
    List.intercalate s (a :: b :: T) = a ++ s ++ List.intercalate s (b :: T) := by
  simp [List.intercalate, List.intersperse_cons₂, List.append_assoc]

theorem intercalate_single (s a : List Char) : List.intercalate s [a] = a := by
  simp [List.intercalate]

/-- A member of `L` occurs contiguously in `List.intercalate ['/'] L`. -/
theorem mem_intercalate_within :
    ∀ (L : List (List Char)) (f : List Char), f ∈ L →
      f <:+: List.intercalate ['/'] L := by
  intro L
  induction L with
  | nil => intro f hf; cases hf
  | cons a T ih =>
    intro f hf
    rcases List.mem_cons.mp hf with h | h
    · subst h
      cases T with
      | nil => rw [intercalate_single]
      | cons b T' =>
        rw [intercalate_cons_two]
        exact pref_to_within ⟨['/'] ++ List.intercalate ['/'] (b :: T'), by simp⟩
    · cases T with
      | nil => cases h
      | cons b T' =>
        rw [intercalate_cons_two]
        exact (ih f h).trans ⟨a ++ ['/'], [], by simp⟩

/-- A component of `splitOn '/'` occurs contiguously in the original. -/
theorem mem_splitOn_within (l c : List Char) (hc : c ∈ l.splitOn '/') :
    c <:+: l := by
  have h := mem_intercalate_within (l.splitOn '/') c hc
  rwa [List.intercalate_splitOn] at h

/-- On component lists free of `".."`, the `normpath` loop reduces to
filtering out empty and `"."` components. -/
theorem normLoop_filter :
    ∀ (comps : List (List Char)), (∀ c ∈ comps, c ≠ ['.', '.']) →
      ∀ (ini : Nat) (acc : List (List Char)),
      normLoop ini acc comps = acc ++ comps.filter keepComp := by
  intro comps
  induction comps with
  | nil => intro _ ini acc; simp [normLoop]
  | cons a T ih =>
    intro h ini acc
    have hT : ∀ c ∈ T, c ≠ ['.', '.'] := fun c hc => h c (List.mem_cons_of_mem _ hc)
    have ha2 : a ≠ ['.', '.'] := h a (List.mem_cons_self _ _)
    unfold normLoop
    by_cases ha : a = [] ∨ a = ['.']
    · rw [if_pos ha, ih hT ini acc,
        List.filter_cons_of_neg (by simp [keepComp, ha])]
    · rw [if_neg ha, if_pos (Or.inl ha2), ih hT ini (acc ++ [a]),
        List.filter_cons_of_pos (keepComp_true_iff.mpr (by tauto)),
        List.append_assoc, List.singleton_append]

/-- A `'/'`-free prefix of `A ++ '/' :: Y` is a prefix of `A`. -/
theorem pref_no_sep : ∀ (A : List Char) {s Y : List Char}, '/' ∉ s →
    s <+: A ++ '/' :: Y → s <+: A := by
  intro A
  induction A with
  | nil =>
    intro s Y hs h
    simp only [List.nil_append] at h
    rcases List.prefix_cons_iff.mp h with h1 | ⟨t, rfl, -⟩
    · simp [h1]
    · exact absurd (List.mem_cons_self _ _) hs
  | cons a A' ih =>
    intro s Y hs h
    rcases List.prefix_cons_iff.mp (by simpa using h) with h1 | ⟨t, rfl, ht⟩
    · simp [h1]
    · have hs' : '/' ∉ t := fun hm => hs (List.mem_cons_of_mem _ hm)
      exact List.cons_prefix_cons.mpr ⟨rfl, ih hs' ht⟩

/-- A `'/'`-free contiguous piece of `A ++ '/' :: Y` lies in `A` or `Y`. -/
theorem within_split_sep : ∀ (A : List Char) {s Y : List Char}, '/' ∉ s →
    s <:+: A ++ '/' :: Y → s <:+: A ∨ s <:+: Y := by
  intro A
  induction A with
  | nil =>
    intro s Y hs h
    simp only [List.nil_append] at h
    rcases List.infix_cons_iff.mp h with h | h
    · left
      rcases List.prefix_cons_iff.mp h with h1 | ⟨t, rfl, -⟩
      · simp [h1]
      · exact absurd (List.mem_cons_self _ _) hs
    · right; exact h
  | cons a A' ih =>
    intro s Y hs h
    rcases List.infix_cons_iff.mp (by simpa using h) with h | h
    · exact Or.inl (pref_to_within (pref_no_sep (a :: A') hs (by simpa using h)))
    · rcases ih hs h with h1 | h1
      · exact Or.inl (List.infix_cons h1)
      · exact Or.inr h1

/-- A `'/'`-free contiguous piece of an intercalation is empty or lies
inside one of the components. -/
theorem within_intercalate : ∀ (L : List (List Char)) {s : List Char}, '/' ∉ s →
    s <:+: List.intercalate ['/'] L → s = [] ∨ ∃ f ∈ L, s <:+: f := by
  intro L
  induction L with
  | nil =>
    intro s _ h
    exact Or.inl (List.infix_nil.mp (by simpa [List.intercalate] using h))
  | cons a T ih =>
    intro s hs h
    cases T with
    | nil =>
      rw [intercalate_single] at h
      exact Or.inr ⟨a, List.mem_cons_self _ _, h⟩
    | cons b T' =>
      rw [intercalate_cons_two] at h
      simp only [List.append_assoc, List.singleton_append] at h
      rcases within_split_sep a hs h with h1 | h1
      · exact Or.inr ⟨a, List.mem_cons_self _ _, h1⟩
      · rcases ih hs h1 with h2 | ⟨f, hf, h3⟩
        · exact Or.inl h2
        · exact Or.inr ⟨f, List.mem_cons_of_mem _ hf, h3⟩

/-- No `"//"` inside `f ++ '/' :: t` when `f` is `'/'`-free, `t` has no
`"//"`, and `t` does not start with `'/'`. -/
theorem no_dslash_chunk : ∀ (f : List Char) {t : List Char}, '/' ∉ f →
    ¬ ['/', '/'] <:+: t → t.head? ≠ some '/' →
    ¬ ['/', '/'] <:+: (f ++ '/' :: t) := by
  intro f
  induction f with
  | nil =>
    intro t _ ht hh h
    simp only [List.nil_append] at h
    rcases List.infix_cons_iff.mp h with h | h
    · rcases List.cons_prefix_cons.mp h with ⟨-, h2⟩
      obtain ⟨r, hr⟩ := h2
      exact hh (by rw [← hr]; rfl)
    · exact ht h
  | cons c f' ih =>
    intro t hf ht hh h
    rcases List.infix_cons_iff.mp (by simpa using h) with h | h
    · rcases List.cons_prefix_cons.mp h with ⟨h1, -⟩
      exact hf (by rw [← h1]; exact List.mem_cons_self _ _)
    · exact ih (fun hm => hf (List.mem_cons_of_mem _ hm)) ht hh h

/-- An intercalation of nonempty `'/'`-free components contains no
`"//"` and does not start with `'/'`. -/
theorem no_dslash_intercalate :
    ∀ (L : List (List Char)), (∀ f ∈ L, f ≠ [] ∧ '/' ∉ f) →
      ¬ ['/', '/'] <:+: List.intercalate ['/'] L ∧
      (List.intercalate ['/'] L).head? ≠ some '/' := by
  intro L
  induction L with
  | nil =>
    intro _
    constructor
    · intro h
      rw [show List.intercalate ['/'] ([] : List (List Char)) = [] from rfl] at h
      exact absurd (List.infix_nil.mp h) (by decide)
    · rw [show List.intercalate ['/'] ([] : List (List Char)) = [] from rfl]
      simp
  | cons a T ih =>
    intro h
    obtain ⟨hane, hans⟩ := h a (List.mem_cons_self _ _)
    have hT := fun f hf => h f (List.mem_cons_of_mem _ hf)
    cases T with
    | nil =>
      rw [intercalate_single]
      refine ⟨fun hin => hans (hin.subset (by simp)), ?_⟩
      cases a with
      | nil => exact absurd rfl hane
      | cons c u =>
        simp only [List.head?_cons, ne_eq, Option.some.injEq]
        intro hc
        exact hans (by rw [← hc]; exact List.mem_cons_self _ _)
    | cons b T' =>
      rw [intercalate_cons_two]
      simp only [List.append_assoc, List.singleton_append]
      obtain ⟨ihd, ihh⟩ := ih hT
      refine ⟨no_dslash_chunk a hans ihd ihh, ?_⟩
      cases a with
      | nil => exact absurd rfl hane
      | cons c u =>
        simp only [List.cons_append, List.head?_cons, ne_eq, Option.some.injEq]
        intro hc
        exact hans (by rw [← hc]; exact List.mem_cons_self _ _)

/-- A normal-form result `'/' :: intercalation` contains no `"//"`. -/
theorem no_dslash_cons (L : List (List Char))
    (h : ∀ f ∈ L, f ≠ [] ∧ '/' ∉ f) :
    ¬ ['/', '/'] <:+: ('/' :: List.intercalate ['/'] L) := by
  intro hin
  obtain ⟨hd, hh⟩ := no_dslash_intercalate L h
  rcases List.infix_cons_iff.mp hin with h1 | h1
  · rcases List.cons_prefix_cons.mp h1 with ⟨-, h2⟩
    obtain ⟨r, hr⟩ := h2
    exact hh (by rw [← hr]; rfl)
  · exact hd h1

theorem stripTrailingNewline_cases (l : List Char) :
    stripTrailingNewline l = l ∨ l = stripTrailingNewline l ++ ['\n'] := by
  unfold stripTrailingNewline
  by_cases h : l.getLast? = some '\n'
  · rw [if_pos h]
    exact Or.inr (List.dropLast_append_getLast? '\n' h).symm
  · rw [if_neg h]
    exact Or.inl rfl

theorem matchesCore_shape {s : List Char} (h : matchesCore s = true) :
    ∃ w, s = '/' :: w ∧ w.all isPathChar = true := by
  cases s with
  | nil => cases h
  | cons c w =>
    simp only [matchesCore, Bool.and_eq_true, beq_iff_eq] at h
    exact ⟨w, by rw [h.1], h.2⟩

theorem strip_of_matchesCore {s : List Char} (h : matchesCore s = true) :
    stripTrailingNewline s = s := by
  obtain ⟨w, rfl, hw⟩ := matchesCore_shape h
  unfold stripTrailingNewline
  rw [if_neg]
  intro hlast
  have hmem := List.mem_of_getLast?_eq_some hlast
  rcases List.mem_cons.mp hmem with h1 | h1
  · exact absurd h1 (by decide)
  · exact absurd (List.all_eq_true.mp hw _ h1) (by decide)

theorem reMatch_strip {s : List Char} (h : reMatchValidPath s = true) :
    matchesCore (stripTrailingNewline s) = true := by
  simp only [reMatchValidPath, Bool.or_eq_true] at h
  rcases h with h | h
  · rw [strip_of_matchesCore h]; exact h
  · exact h

/-- Filtering components out of an intercalation yields a sub-list
(dropping a component drops a contiguous chunk). -/
theorem intercalate_filter_sub :
    ∀ (L : List (List Char)) (q : List Char → Bool),
      List.intercalate ['/'] (L.filter q) <+ List.intercalate ['/'] L := by
  intro L q
  induction L with
  | nil => simp
  | cons a T ih =>
    by_cases hq : q a
    · rw [List.filter_cons_of_pos hq]
      cases T with
      | nil => simp only [List.filter_nil]; exact List.Sublist.refl _
      | cons b T' =>
        by_cases hf : (b :: T').filter q = []
        · rw [hf, intercalate_single, intercalate_cons_two, List.append_assoc]
          exact List.sublist_append_left _ _
        · obtain ⟨c, F', hcf⟩ : ∃ c F', (b :: T').filter q = c :: F' := by
            cases hx : (b :: T').filter q with
            | nil => exact absurd hx hf
            | cons c F' => exact ⟨c, F', rfl⟩
          rw [hcf, intercalate_cons_two, intercalate_cons_two, ← hcf,
            List.append_assoc, List.append_assoc]
          exact (List.append_sublist_append_left a).mpr
            ((List.append_sublist_append_left ['/']).mpr ih)
    · rw [List.filter_cons_of_neg hq]
      cases T with
      | nil =>
        simp only [List.filter_nil]
        exact (by simp [List.intercalate] : List.intercalate ['/'] [] = []) ▸
          List.nil_sublist _
      | cons b T' =>
        rw [intercalate_cons_two, List.append_assoc]
        exact ih.trans ((List.sublist_append_right ['/'] _).trans
          (List.sublist_append_right a _))

theorem splitOn_cons_sep (l : List Char) :
    ('/' :: l).splitOn '/' = [] :: l.splitOn '/' := by
  simp [List.splitOn, List.splitOnP_cons]

theorem initialSlashes_one (p : List Char) (hhead : p.take 1 = ['/'])
    (hds : ¬ ['/', '/'] <:+: p) : initialSlashesOf p = 1 := by
  unfold initialSlashesOf
  rw [if_pos hhead, if_neg]
  rintro ⟨ht, -⟩
  exact hds (pref_to_within ⟨p.drop 2, by rw [← ht]; exact List.take_append_drop 2 p⟩)

/-- On a nonempty input that starts with `'/'` and contains neither
`".."` nor `"//"`, `normpath` reduces to: split on `'/'`, drop the empty
and `"."` components, re-join behind a single leading `'/'`. -/
theorem normpath_valid (p : List Char) (hne : p ≠ []) (hhead : p.take 1 = ['/'])
    (hdd : ¬ ['.', '.'] <:+: p) (hds : ¬ ['/', '/'] <:+: p) :
    normpath p = '/' :: List.intercalate ['/'] ((p.splitOn '/').filter keepComp) := by
  have hc : ∀ c ∈ p.splitOn '/', c ≠ ['.', '.'] :=
    fun c hc he => hdd (he ▸ mem_splitOn_within p c hc)
  unfold normpath
  rw [if_neg hne, initialSlashes_one p hhead hds, normLoop_filter _ hc 1 []]
  simp only [List.nil_append]
  rw [show List.replicate 1 '/' = ['/'] from rfl, List.singleton_append]
  unfold emptyToDot
  rw [if_neg (by simp)]

/-- The re-joined normal form still matches the path regex: its
characters are the surviving characters of the valid input, with a
possible single `'\n'` staying at the very end. -/
theorem reMatch_result (p w : List Char) (hw : w.all isPathChar = true)
    (hshape : p = '/' :: w ∨ p = ('/' :: w) ++ ['\n']) :
    reMatchValidPath
      ('/' :: List.intercalate ['/'] ((p.splitOn '/').filter keepComp)) = true := by
  rcases hshape with hp | hp
  · subst hp
    rw [splitOn_cons_sep, List.filter_cons_of_neg (by simp [keepComp])]
    have hJ : List.intercalate ['/'] ((w.splitOn '/').filter keepComp) <+ w := by
      have h1 := intercalate_filter_sub (w.splitOn '/') keepComp
      rwa [List.intercalate_splitOn] at h1
    have hall : (List.intercalate ['/'] ((w.splitOn '/').filter keepComp)).all
        isPathChar = true :=
      List.all_eq_true.mpr fun c hc => List.all_eq_true.mp hw c (hJ.subset hc)
    simp [reMatchValidPath, matchesCore, hall]
  · subst hp
    rw [List.cons_append, splitOn_cons_sep,
      List.filter_cons_of_neg (by simp [keepComp])]
    have hJ : List.intercalate ['/'] (((w ++ ['\n']).splitOn '/').filter keepComp)
        <+ w ++ ['\n'] := by
      have h1 := intercalate_filter_sub ((w ++ ['\n']).splitOn '/') keepComp
      rwa [List.intercalate_splitOn] at h1
    obtain ⟨l₁, l₂, hJeq, hl₁, hl₂⟩ := List.sublist_append_iff.mp hJ
    have hl₁all : l₁.all isPathChar = true :=
      List.all_eq_true.mpr fun c hc => List.all_eq_true.mp hw c (hl₁.subset hc)
    cases l₂ with
    | nil =>
      rw [hJeq, List.append_nil]
      simp [reMatchValidPath, matchesCore, hl₁all]
    | cons x t =>
      have hx : x = '\n' ∧ t = [] := by
        have ht : t = [] := by
          cases t with
          | nil => rfl
          | cons y u =>
            exfalso
            have hlen := hl₂.length_le
            simp only [List.length_cons, List.length_nil] at hlen
            omega
        subst ht
        have hxm : x ∈ ['\n'] := hl₂.subset (by simp)
        simp only [List.mem_singleton] at hxm
        exact ⟨hxm, rfl⟩
      obtain ⟨rfl, rfl⟩ := hx
      rw [hJeq]
      have hstripr : stripTrailingNewline ('/' :: (l₁ ++ ['\n'])) = '/' :: l₁ := by
        rw [show ('/' :: (l₁ ++ ['\n'])) = ('/' :: l₁) ++ ['\n'] by simp]
        unfold stripTrailingNewline
        rw [if_pos (List.getLast?_concat _), List.dropLast_concat]
      have hcore : matchesCore
          (stripTrailingNewline ('/' :: (l₁ ++ ['\n']))) = true := by
        rw [hstripr]
        simp [matchesCore, hl₁all]
      unfold reMatchValidPath
      rw [hcore, Bool.or_true]

/-- Claim C6 (confirmed): `sanitize_path` is idempotent on every path it
accepts, and its result always starts with a single leading separator
(a `'/'` not followed by another `'/'`). -/
theorem sanitize_path_idem (p r : List Char) (h : sanitize_path p = .ok r) :
    sanitize_path r = .ok r ∧ r.take 1 = ['/'] ∧ r.take 2 ≠ ['/', '/'] := by
  unfold sanitize_path at h
  by_cases h0 : p = []
  · rw [if_pos h0] at h; exact (Except.noConfusion h)
  rw [if_neg h0] at h
  by_cases h1 : reMatchValidPath p = true
  swap
  · have h1' : reMatchValidPath p = false := by
      revert h1; cases reMatchValidPath p <;> simp
    rw [if_pos (by simp [h1'])] at h
    exact (Except.noConfusion h)
  rw [if_neg (by simp [h1])] at h
  by_cases h2 : containsSub ['.', '.'] p = true
  · rw [if_pos h2] at h; exact (Except.noConfusion h)
  rw [if_neg h2] at h
  by_cases h3 : containsSub ['/', '/'] p = true
  · rw [if_pos h3] at h; exact (Except.noConfusion h)
  rw [if_neg h3] at h
  have hdd : ¬ ['.', '.'] <:+: p := by simpa [containsSub] using h2
  have hds : ¬ ['/', '/'] <:+: p := by simpa [containsSub] using h3
  -- shape of the input, from the regex match
  obtain ⟨w, hsw, hw⟩ := matchesCore_shape (reMatch_strip h1)
  have hshape : p = '/' :: w ∨ p = ('/' :: w) ++ ['\n'] := by
    rcases stripTrailingNewline_cases p with hcase | hcase
    · left; rw [← hcase]; exact hsw
    · right; rw [hcase, hsw]
  have hhead : p.take 1 = ['/'] := by
    rcases hshape with hp | hp <;> rw [hp] <;> rfl
  -- the accepted result is the re-joined filtered component list
  rw [normpath_valid p h0 hhead hdd hds] at h
  rw [if_pos (show List.take 1
      ('/' :: List.intercalate ['/'] ((p.splitOn '/').filter keepComp))
      = ['/'] from rfl)] at h
  have hr : r = '/' :: List.intercalate ['/'] ((p.splitOn '/').filter keepComp) :=
    (Except.ok.inj h).symm
  have hF : ∀ f ∈ (p.splitOn '/').filter keepComp,
      f ≠ [] ∧ f ≠ ['.'] ∧ '/' ∉ f ∧ f <:+: p := by
    intro f hf
    obtain ⟨hfm, hfk⟩ := List.mem_filter.mp hf
    obtain ⟨hne', hnd'⟩ := keepComp_true_iff.mp hfk
    exact ⟨hne', hnd', splitOn_no_sep p f hfm, mem_splitOn_within p f hfm⟩
  subst hr
  have hre := reMatch_result p w hw hshape
  have hnd : ¬ ['.', '.'] <:+:
      ('/' :: List.intercalate ['/'] ((p.splitOn '/').filter keepComp)) := by
    intro hin
    have h' : ['.', '.'] <:+:
        List.intercalate ['/'] ((p.splitOn '/').filter keepComp) := by
      rcases List.infix_cons_iff.mp hin with hx | hx
      · rcases List.cons_prefix_cons.mp hx with ⟨he, -⟩
        exact absurd he (by decide)
      · exact hx
    rcases within_intercalate _ (by decide) h' with he | ⟨f, hf, hsubf⟩
    · simp at he
    · exact hdd (hsubf.trans (hF f hf).2.2.2)
  have hnds : ¬ ['/', '/'] <:+:
      ('/' :: List.intercalate ['/'] ((p.splitOn '/').filter keepComp)) :=
    no_dslash_cons _ (fun f hf => ⟨(hF f hf).1, (hF f hf).2.2.1⟩)
  refine ⟨?_, rfl, ?_⟩
  · -- idempotence: sanitizing the result accepts it unchanged
    unfold sanitize_path
    rw [if_neg (by simp), if_neg (by simp [hre]),
      if_neg (by simpa [containsSub] using hnd),
      if_neg (by simpa [containsSub] using hnds)]
    by_cases hFnil : (p.splitOn '/').filter keepComp = []
    · rw [hFnil]
      rfl
    · have hnpr := normpath_valid
        ('/' :: List.intercalate ['/'] ((p.splitOn '/').filter keepComp))
        (by simp) rfl hnd hnds
      rw [splitOn_cons_sep, List.filter_cons_of_neg (by simp [keepComp]),
        List.splitOn_intercalate ((p.splitOn '/').filter keepComp) '/'
          (fun f hf => (hF f hf).2.2.1) hFnil,
        List.filter_eq_self.mpr
          (fun f hf => keepComp_true_iff.mpr ⟨(hF f hf).1, (hF f hf).2.1⟩)] at hnpr
      rw [hnpr]
      rw [if_pos (show List.take 1
          ('/' :: List.intercalate ['/'] ((p.splitOn '/').filter keepComp))
          = ['/'] from rfl)]
  · -- a single leading separator
    intro hcontra
    have htk : (List.intercalate ['/'] ((p.splitOn '/').filter keepComp)).take 1
        = ['/'] := by
      have hcontra' : '/' ::
          (List.intercalate ['/'] ((p.splitOn '/').filter keepComp)).take 1
          = ['/', '/'] := hcontra
      exact (List.cons.inj hcontra').2
    have hhd : (List.intercalate ['/'] ((p.splitOn '/').filter keepComp)).head?
        = some '/' := by
      cases hJ : List.intercalate ['/'] ((p.splitOn '/').filter keepComp) with
      | nil => rw [hJ] at htk; cases htk
      | cons c T =>
        rw [hJ] at htk
        have : c = '/' := by simpa using htk
        rw [this]
        rfl
    exact (no_dslash_intercalate _
      (fun f hf => ⟨(hF f hf).1, (hF f hf).2.2.1⟩)).2 hhd

/-- Witness for C6: `"/a/./b"` is accepted as `"/a/b"`, which sanitizes
to itself and starts with a single `'/'`. -/
theorem sanitize_path_idem_witness :
    sanitize_path "/a/b".data = .ok "/a/b".data ∧
    "/a/b".data.take 1 = ['/'] ∧ "/a/b".data.take 2 ≠ ['/', '/'] :=
  sanitize_path_idem "/a/./b".data "/a/b".data rfl

end FtpBridge
